import Mathlib

/-!
Verification development for the `dl` concurrent HTTP downloader library.

The Go source is shallowly embedded: pure arithmetic (range partitioning,
rate formatting) becomes Lean functions on `Nat`/`Int`; the effectful
procedures (`downloadPartial`, `multiDownload`, `singleDownload`, `merge`,
`Start`, `Stop`) become functions from an explicit environment (the
oracle of HTTP responses, filesystem outcomes and observed stop-signal
states) to a result together with a trace of observable events.  Worker
goroutine traces are concatenated in spawn order: every property proved
below is insensitive to the interleaving of events of distinct workers.
-/

namespace DL

/-! ## Decimal rendering (models `strconv.FormatInt`/`fmt` `%d` on non-negative values) -/

/-- The ASCII digit character for `n < 10`. -/
def digitChar (n : ℕ) : Char := Char.ofNat (48 + n)

/-- Accumulator loop producing the base-10 digits of `n` (most significant first). -/
def natDigitsAux : ℕ → ℕ → List Char → List Char
  | 0, _, acc => acc
  | fuel + 1, n, acc =>
    if n < 10 then digitChar n :: acc
    else natDigitsAux fuel (n / 10) (digitChar (n % 10) :: acc)

/-- Base-10 digit list of `n`; `n + 1` units of fuel always suffice. -/
def natDecimalChars (n : ℕ) : List Char := natDigitsAux (n + 1) n []

/-- Decimal rendering of a natural number, as Go prints a non-negative `%d`. -/
def natDecimal (n : ℕ) : String := String.mk (natDecimalChars n)

/-- A decimal digit character test (the `\d` class of the rate regex). -/
def isDigitCh (c : Char) : Bool := decide (48 ≤ c.toNat) && decide (c.toNat ≤ 57)

/-! ## Range partitioning (from `multiDownload` in the source)

`partSize := contentLen / concurrency`; the spawn loop keeps a running
cursor `rangeStart`, advancing it by `partSize` per iteration, and worker
`i` computes `rangeEnd := rangeStart + partSize` except that the last
worker (`i = concurrency - 1`) sets `rangeEnd := contentLen`. -/

/-- Models `partSize := contentLen / int64(d.concurrency)` (non-negative case). -/
def partSize (contentLen concurrency : ℕ) : ℕ := contentLen / concurrency

/-- The running `rangeStart` cursor: the value worker `i` receives. -/
def rangeStartAcc (L N : ℕ) : ℕ → ℕ
  | 0 => 0
  | i + 1 => rangeStartAcc L N i + partSize L N

/-- The `rangeEnd` computed inside worker `i`'s goroutine. -/
def rangeEnd (L N i : ℕ) : ℕ :=
  if i = N - 1 then L else rangeStartAcc L N i + partSize L N

/-! ## Events, errors and configuration

Each effectful procedure is embedded as a function producing a result in
`Except DlErr Unit` together with a `List Ev` of observable effects, in
program order (worker traces concatenated in spawn order). -/

/-- Observable effects of a run. `copyBody key n` stands for `io.CopyBuffer`
streaming `n` body bytes through `io.MultiWriter(file, d.sw)`: the bytes are
appended to the file at `key` and fed to the progress sink (firing the
`onProgress` callback when registered). `sinkWrite n` stands for a direct
`d.sw.Write` of `n` bytes. -/
inductive Ev
  | httpHead
  | regCancel (key : String)
  | unregCancel (key : String)
  | httpGet (url : String) (rangeHdr : Option String)
  | setTotal (n : ℤ)
  | mkdir (path : String)
  | openPart (path : String) (append : Bool)
  | openDest (path : String) (trunc : Bool)
  | copyBody (key : String) (n : ℕ)
  | sinkWrite (n : ℕ)
  | cbStart (total : ℤ) (name : String)
  | cbCanceled (name : String)
  | cbFinished (name : String)
  | mergeOpenPart (i : ℕ)
  | mergeCopyPart (i : ℕ)
  | mergeClosePart (i : ℕ)
  | mergeRemovePart (i : ℕ)
  | removeDirAll (path : String)
  deriving DecidableEq, Repr

/-- Error values returned by the downloader (`errors.New`/`fmt.Errorf` values). -/
inductive DlErr
  | invalidURL
  | alreadyStopped
  | transport
  | badStatus (code : ℕ)
  | invalidContentLength (n : ℤ)
  | fsError
  deriving DecidableEq, Repr

/-- The immutable per-run fields of `Downloader` consulted by the download path. -/
structure DCfg where
  url : String
  fileName : String
  baseDir : String
  concurrency : ℕ
  resume : Bool

/-- Which observer callbacks are registered (non-nil function fields). -/
structure Callbacks where
  hasStart : Bool
  hasFinished : Bool
  hasCanceled : Bool
  hasProgress : Bool

/-- Models `filepath.Join` on clean relative components, as used for part paths. -/
def fpJoin (a b : String) : String := a ++ "/" ++ b

/-- Models `getPartDir`: `filepath.Join(d.options.BaseDir, filename)`. -/
def getPartDir (baseDir filename : String) : String := fpJoin baseDir filename

/-- Models `getPartFilename`: `filepath.Join(d.partDir, fmt.Sprintf("%s_%d", filename, partNum))`. -/
def getPartFilename (partDir filename : String) (partNum : ℕ) : String :=
  fpJoin partDir (filename ++ "_" ++ natDecimal partNum)

/-- Models `fmt.Sprintf("bytes=%d-%d", rangeStart, rangeEnd-1)`: the wire Range
header for the half-open span `[lo, hi)` carries inclusive end `hi - 1`. -/
def rangeHeaderStr (lo hi : ℕ) : String :=
  "bytes=" ++ natDecimal lo ++ "-" ++ natDecimal (hi - 1)

/-! ## RangeFetcher (`downloadPartial`) -/

/-- Environment oracle for one part fetch: outcome of the GET and of the
part-file operations. -/
structure PartEnv where
  getErr : Bool
  status : ℕ
  openErr : Bool
  copyErr : Bool
  bodyLen : ℕ

/-- Models `downloadPartial(rangeStart, rangeEnd, i)`.  The empty-range guard
`rangeStart >= rangeEnd` sits before every effect: in that case the function
returns nil having registered no cancel handle, issued no request and touched
no file.  Otherwise it registers a cancel handle under the part filename,
issues the Range GET, checks the status (200 or 206), opens the part file
(append mode iff resume), streams the body, and always deregisters the cancel
handle on exit (the deferred `Delete`). -/
def downloadPartial (url partDir filename : String) (resume : Bool)
    (env : PartEnv) (rangeStart rangeEnd : ℕ) (i : ℕ) :
    Except DlErr Unit × List Ev :=
  if rangeEnd ≤ rangeStart then (.ok (), [])
  else
    let key := getPartFilename partDir filename i
    let e1 : List Ev := [.regCancel key, .httpGet url (some (rangeHeaderStr rangeStart rangeEnd))]
    if env.getErr then (.error .transport, e1 ++ [.unregCancel key])
    else if env.status ≠ 200 ∧ env.status ≠ 206 then
      (.error (.badStatus env.status), e1 ++ [.unregCancel key])
    else if env.openErr then (.error .fsError, e1 ++ [.unregCancel key])
    else
      let e2 := e1 ++ [.openPart key resume, .copyBody key env.bodyLen]
      if env.copyErr then (.error .fsError, e2 ++ [.unregCancel key])
      else (.ok (), e2 ++ [.unregCancel key])

/-- Models the body of one spawned worker goroutine in `multiDownload`:
compute `rangeEnd` (last worker runs to `contentLen`), read the existing
part file when resuming (`onDisk` is its size, `none` when `os.ReadFile`
fails), feed those bytes to the sink, then call `downloadPartial` on the
shifted range `[rangeStart+downloaded, rangeEnd)`.  The worker drops the
fetch error (the goroutine just returns). -/
def workerRun (url partDir filename : String) (resume : Bool) (env : PartEnv)
    (L N i : ℕ) (onDisk : Option ℕ) : List Ev :=
  let rS := rangeStartAcc L N i
  let rE := rangeEnd L N i
  let pre : ℕ × List Ev :=
    if resume then
      match onDisk with
      | some d => (d, [.sinkWrite d])
      | none => (0, [])
    else (0, [])
  pre.2 ++ (downloadPartial url partDir filename resume env (rS + pre.1) rE i).2

/-! ## Merge (`merge`) -/

/-- Environment oracle for the merge: per-part filesystem outcomes and the
bytes each part file holds. -/
structure MergeEnv where
  destOpenErr : Bool
  partOpenErr : ℕ → Bool
  copyErr : ℕ → Bool
  closeErr : ℕ → Bool
  removeErr : ℕ → Bool
  partBytes : ℕ → List ℕ

/-- The merge loop from part index `i`, with `fuel` parts remaining: open
part `i`, copy it to the destination, close it, remove it, then continue
with `i + 1`; the first failing operation aborts with an error. Returns the
bytes appended to the destination and the events in order. -/
def mergeAux (env : MergeEnv) : ℕ → ℕ → Except DlErr (List ℕ) × List Ev
  | _, 0 => (.ok [], [])
  | i, fuel + 1 =>
    if env.partOpenErr i then (.error .fsError, [])
    else if env.copyErr i then (.error .fsError, [.mergeOpenPart i])
    else if env.closeErr i then
      (.error .fsError, [.mergeOpenPart i, .mergeCopyPart i])
    else if env.removeErr i then
      (.error .fsError, [.mergeOpenPart i, .mergeCopyPart i, .mergeClosePart i])
    else
      let rest := mergeAux env (i + 1) fuel
      let evs : List Ev :=
        [.mergeOpenPart i, .mergeCopyPart i, .mergeClosePart i, .mergeRemovePart i] ++ rest.2
      match rest.1 with
      | .error e => (.error e, evs)
      | .ok bs => (.ok (env.partBytes i ++ bs), evs)

/-- Models `merge`: open the destination at `filename` with
`O_CREATE|O_WRONLY|O_TRUNC`, then run the ascending part loop. -/
def merge (env : MergeEnv) (filename : String) (N : ℕ) :
    Except DlErr (List ℕ) × List Ev :=
  if env.destOpenErr then (.error .fsError, [])
  else
    let rest := mergeAux env 0 N
    (rest.1, Ev.openDest filename true :: rest.2)

/-- Specification-side description of the merged destination contents:
the bytes of parts `i, i+1, …, i+fuel-1` concatenated in ascending index
order. -/
def destBytesFrom (env : MergeEnv) : ℕ → ℕ → List ℕ
  | _, 0 => []
  | i, fuel + 1 => env.partBytes i ++ destBytesFrom env (i + 1) fuel

/-- Specification-side description of the merge event sequence: for each
part in ascending order, open it, copy it, close it, remove it. -/
def mergeEvsFrom : ℕ → ℕ → List Ev
  | _, 0 => []
  | i, fuel + 1 =>
    [.mergeOpenPart i, .mergeCopyPart i, .mergeClosePart i, .mergeRemovePart i] ++
      mergeEvsFrom (i + 1) fuel

/-- Every merge operation (destination open; per-part open, copy, close,
remove) succeeds for the first `N` parts. -/
def mergeAllOk (env : MergeEnv) (N : ℕ) : Prop :=
  env.destOpenErr = false ∧
    ∀ i < N, env.partOpenErr i = false ∧ env.copyErr i = false ∧
      env.closeErr i = false ∧ env.removeErr i = false

instance mergeAllOkDec (env : MergeEnv) (N : ℕ) : Decidable (mergeAllOk env N) := by
  unfold mergeAllOk
  exact inferInstance

/-! ## Coordinator (`multiDownload`, `singleDownload`, `download`) -/

/-- Environment oracle for one multi-mode run: the filesystem and HTTP
outcomes, the stop-signal value observed at each spawn-loop check and at
the post-join check, and the pre-existing part-file sizes. -/
structure MultiEnv where
  mkdirErr : Bool
  stopAtSpawn : ℕ → Bool
  stopAtJoin : Bool
  partOnDisk : ℕ → Option ℕ
  partEnv : ℕ → PartEnv
  mergeEnv : MergeEnv
  removeDirErr : Bool

/-- The spawn loop of `multiDownload` starting at index `i` with `fuel`
iterations remaining: before spawning worker `i` the loop polls the stop
signal and returns early (flag `true`) when it is raised; otherwise the
worker is spawned and its trace occurs. -/
def spawnLoopAux (stopAt : ℕ → Bool) (work : ℕ → List Ev) : ℕ → ℕ → Bool × List Ev
  | _, 0 => (false, [])
  | i, fuel + 1 =>
    if stopAt i then (true, [])
    else
      let rest := spawnLoopAux stopAt work (i + 1) fuel
      (rest.1, work i ++ rest.2)

/-- The full spawn loop over workers `0 … N-1`. -/
def spawnLoop (stopAt : ℕ → Bool) (work : ℕ → List Ev) (N : ℕ) : Bool × List Ev :=
  spawnLoopAux stopAt work 0 N

/-- Models `multiDownload(contentLen)`: reject non-positive lengths, set
the sink total, fire `onDownloadStart` when registered, create the part
directory, spawn the workers, join, then either report cancellation
(stop raised: fire `onDownloadCanceled`, return nil, keep part files) or
merge, remove the part directory (failure swallowed) and fire
`onDownloadFinished`. -/
def multiDownload (cfg : DCfg) (cbs : Callbacks) (env : MultiEnv)
    (contentLen : ℤ) : Except DlErr Unit × List Ev :=
  if contentLen ≤ 0 then (.error (.invalidContentLength contentLen), [])
  else
    let filename := cfg.fileName
    let L := contentLen.toNat
    let partDir := getPartDir cfg.baseDir filename
    let e0 : List Ev :=
      [.setTotal contentLen] ++ (if cbs.hasStart then [.cbStart contentLen filename] else [])
    if env.mkdirErr then (.error .fsError, e0)
    else
      let e1 := e0 ++ [Ev.mkdir partDir]
      let work := fun i =>
        workerRun cfg.url partDir filename cfg.resume (env.partEnv i) L
          cfg.concurrency i (env.partOnDisk i)
      let spawned := spawnLoop env.stopAtSpawn work cfg.concurrency
      if spawned.1 then (.ok (), e1 ++ spawned.2)
      else if env.stopAtJoin then
        (.ok (), e1 ++ spawned.2 ++
          (if cbs.hasCanceled then [Ev.cbCanceled filename] else []))
      else
        let m := merge env.mergeEnv filename cfg.concurrency
        match m.1 with
        | .error e => (.error e, e1 ++ spawned.2 ++ m.2)
        | .ok _ =>
          (.ok (), e1 ++ spawned.2 ++ m.2 ++ [Ev.removeDirAll partDir] ++
            (if cbs.hasFinished then [Ev.cbFinished filename] else []))

/-- Environment oracle for a single-mode run. -/
structure SingleEnv where
  getErr : Bool
  status : ℕ
  contentLength : ℤ
  openErr : Bool
  copyErr : Bool
  bodyLen : ℕ
  stopAtEnd : Bool

/-- Models `singleDownload`: register a cancel handle under the file name,
issue the plain GET, require status exactly 200, set the sink total, fire
`onDownloadStart`, open the destination with `O_CREATE|O_WRONLY|O_TRUNC`,
stream the body, then fire `onDownloadCanceled` or `onDownloadFinished`
according to the stop signal; the deferred cancel-handle delete runs on
every exit path. -/
def singleDownload (cfg : DCfg) (cbs : Callbacks) (env : SingleEnv) :
    Except DlErr Unit × List Ev :=
  let filename := cfg.fileName
  let e0 : List Ev := [.regCancel filename, .httpGet cfg.url none]
  if env.getErr then (.error .transport, e0 ++ [.unregCancel filename])
  else if env.status ≠ 200 then
    (.error (.badStatus env.status), e0 ++ [.unregCancel filename])
  else
    let e1 := e0 ++ [Ev.setTotal env.contentLength] ++
      (if cbs.hasStart then [Ev.cbStart env.contentLength filename] else [])
    if env.openErr then (.error .fsError, e1 ++ [.unregCancel filename])
    else
      let e2 := e1 ++ [Ev.openDest filename true, Ev.copyBody filename env.bodyLen]
      if env.copyErr then (.error .fsError, e2 ++ [.unregCancel filename])
      else if env.stopAtEnd then
        (.ok (), e2 ++ (if cbs.hasCanceled then [Ev.cbCanceled filename] else []) ++
          [.unregCancel filename])
      else
        (.ok (), e2 ++ (if cbs.hasFinished then [Ev.cbFinished filename] else []) ++
          [.unregCancel filename])

/-- Outcome of the HEAD probe in `download`. -/
structure HeadEnv where
  headErr : Bool
  status : ℕ
  acceptRanges : Bool
  contentLength : ℤ

/-- Models `download`: reject an empty URL with `ErrInvalidURL` before any
I/O, issue the HEAD probe, and dispatch to multi-mode (status 200 and
`Accept-Ranges: bytes`) or single-mode. -/
def download (cfg : DCfg) (cbs : Callbacks) (henv : HeadEnv)
    (menv : MultiEnv) (senv : SingleEnv) : Except DlErr Unit × List Ev :=
  if cfg.url = "" then (.error .invalidURL, [])
  else if henv.headErr then (.error .transport, [.httpHead])
  else if henv.status = 200 ∧ henv.acceptRanges = true then
    let r := multiDownload cfg cbs menv henv.contentLength
    (r.1, Ev.httpHead :: r.2)
  else
    let r := singleDownload cfg cbs senv
    (r.1, Ev.httpHead :: r.2)

/-! ## Rate formatting (`calcRate` in `selfWriter`)

The tick handler swaps the accumulated window to zero, computes
`bytesPerSecond := float64(accSize) * 4.0` and formats it with `%.2f`
under a unit chosen by thresholds at 1 GiB/s, 1 MiB/s, 1 KiB/s.  The
window count is a sum of buffer lengths, hence a natural number, and
multiplication by 4 and division by a power of 1024 are exact scalings,
so the float computation is modelled by exact rational arithmetic
(`num/den` in lowest-level form) with `%.2f` as round-half-to-even to
two decimals, which is Go's formatting of these exactly-represented
values. -/

/-- Round `num/den` to centis (two decimal places), ties to even, as
`%.2f` renders an exactly-represented quotient. -/
def round2 (num den : ℕ) : ℕ :=
  let a := num * 100
  let q := a / den
  let r := a % den
  if 2 * r < den then q
  else if den < 2 * r then q + 1
  else if q % 2 = 0 then q else q + 1

/-- The character list `%.2f` produces for the value `num/den`. -/
def fmtTwoDecChars (num den : ℕ) : List Char :=
  let c := round2 num den
  natDecimalChars (c / 100) ++ ['.', digitChar (c % 100 / 10), digitChar (c % 10)]

/-- Models `formatRate(bytesPerSecond)` inside `calcRate`: threshold cases
`>= GB`, `>= MB`, `>= KB` with `GB = 1024^3`, `MB = 1024^2`, `KB = 1024`. -/
def formatRateChars (bps : ℕ) : List Char :=
  if 1073741824 ≤ bps then fmtTwoDecChars bps 1073741824 ++ [' ', 'G', 'B', '/', 's']
  else if 1048576 ≤ bps then fmtTwoDecChars bps 1048576 ++ [' ', 'M', 'B', '/', 's']
  else if 1024 ≤ bps then fmtTwoDecChars bps 1024 ++ [' ', 'K', 'B', '/', 's']
  else fmtTwoDecChars bps 1 ++ [' ', 'B', '/', 's']

/-- The published rate string for a bytes-per-second value. -/
def formatRate (bps : ℕ) : String := String.mk (formatRateChars bps)

/-- The rate string stored before the first tick (and by `NewDownloader`
and `init`). -/
def initialRate : String := "0.00 MB/s"

/-- Models one tick of `calcRate`: atomically swap the window counter to
zero, publish `formatRate(accSize * 4)`.  Returns the published string and
the new window value. -/
def calcRateTick (accWindow : ℕ) : String × ℕ :=
  (formatRate (accWindow * 4), 0)

/-- The unit the specification's thresholds select for a given
bytes-per-second value (spec wording: `>= 1 GiB/s` is GB/s, `>= 1 MiB/s`
is MB/s, `>= 1 KiB/s` is KB/s, otherwise B/s). -/
def specUnitChars (bps : ℕ) : List Char :=
  if 1073741824 ≤ bps then ['G', 'B']
  else if 1048576 ≤ bps then ['M', 'B']
  else if 1024 ≤ bps then ['K', 'B']
  else ['B']

/-- The divisor paired with the specification's unit selection. -/
def specDen (bps : ℕ) : ℕ :=
  if 1073741824 ≤ bps then 1073741824
  else if 1048576 ≤ bps then 1048576
  else if 1024 ≤ bps then 1024
  else 1

/-- Structural reading of the regular expression
`-?\d+\.\d{2} (B|KB|MB|GB)/s`: an optional minus sign, a nonempty digit
string, a dot, exactly two digits, a space, one of the four units, `/s`. -/
def matchesRateRegex (s : String) : Prop :=
  ∃ (neg : Bool) (ds : List Char) (d1 d2 : Char) (u : List Char),
    ds ≠ [] ∧ (∀ c ∈ ds, isDigitCh c = true) ∧
    isDigitCh d1 = true ∧ isDigitCh d2 = true ∧
    (u = ['B'] ∨ u = ['K', 'B'] ∨ u = ['M', 'B'] ∨ u = ['G', 'B']) ∧
    s.data = (cond neg ['-'] []) ++ ds ++ '.' :: d1 :: d2 :: ' ' :: (u ++ ['/', 's'])

/-! ## Construction (`NewDownloader` and the option functions) -/

/-- The `Options` struct. `concurrency` is a Go `int`, so an integer. -/
structure GoOptions where
  fileName : String
  baseDir : String
  concurrency : ℤ
  resume : Bool
  deriving DecidableEq, Repr

/-- The four exported option functions. -/
inductive OptFn
  | withFileName (s : String)
  | withBaseDir (s : String)
  | withConcurrency (c : ℤ)
  | withResume (b : Bool)
  deriving DecidableEq, Repr

/-- Applying one option function to an `Options` value. -/
def applyOpt (o : GoOptions) : OptFn → GoOptions
  | .withFileName s => { o with fileName := s }
  | .withBaseDir s => { o with baseDir := s }
  | .withConcurrency c => { o with concurrency := c }
  | .withResume b => { o with resume := b }

/-- Models `filepath.Base` on slash-separated paths: empty path gives
`"."`, trailing slashes are stripped, the last component is returned,
and an all-slash path gives `"/"`. -/
def filepathBase (p : String) : String :=
  if p = "" then "."
  else
    let l := (p.data.reverse.dropWhile (fun c => c = '/')).reverse
    if l = [] then "/"
    else String.mk ((l.reverse.takeWhile (fun c => c ≠ '/')).reverse)

/-- The defaults `NewDownloader` starts from: concurrency is the logical
CPU count, base directory `"downloader_cache"`, file name the base of the
URL, resume enabled. -/
def defaultOptions (numCPU : ℤ) (url : String) : GoOptions :=
  { fileName := filepathBase url
    baseDir := "downloader_cache"
    concurrency := numCPU
    resume := true }

/-- Models the options computation in `NewDownloader`: fold the caller's
option functions over the defaults, then map a zero concurrency to the
CPU count. -/
def newDownloaderOptions (numCPU : ℤ) (url : String) (opts : List OptFn) : GoOptions :=
  let o := opts.foldl applyOpt (defaultOptions numCPU url)
  if o.concurrency = 0 then { o with concurrency := numCPU } else o

/-! ## Controller (`Start`, `Stop`, `init`) -/

/-- The progress sink's mutable fields (`selfWriter`). -/
structure SinkState where
  loaded : ℤ
  total : ℤ
  accPacketSize : ℤ
  rate : String
  deriving DecidableEq, Repr

/-- The controller's mutable state: the sink, whether the stop signal is
raised, the identity (generation) of the stop-signal channel object, and
the keys currently held in the cancel registry. -/
structure DlState where
  sw : SinkState
  stopRaised : Bool
  signalGen : ℕ
  registry : List String
  deriving DecidableEq, Repr

/-- Models `selfWriter.Write`: add `n` to `loaded` and to the rate window. -/
def swWrite (sw : SinkState) (n : ℕ) : SinkState × ℕ :=
  ({ sw with loaded := sw.loaded + n, accPacketSize := sw.accPacketSize + n }, n)

/-- Models `Downloader.init`: zero the loaded counter and the rate window,
reset the rate string, allocate a fresh stop-signal channel, clear the
cancel registry. -/
def dInit (st : DlState) : DlState :=
  { st with
    sw := { st.sw with loaded := 0, accPacketSize := 0, rate := "0.00 MB/s" }
    stopRaised := false
    signalGen := st.signalGen + 1
    registry := [] }

/-- Models `Stop`: when the stop signal is already raised, fail with
`ErrAlreadyStopped` and change nothing; otherwise raise it, invoke every
cancel handle in the registry (returned as the invoked-key list) and empty
the registry. -/
def stop (st : DlState) : Except DlErr Unit × DlState × List String :=
  if st.stopRaised then (.error .alreadyStopped, st, [])
  else (.ok (), { st with stopRaised := true, registry := [] }, st.registry)

/-- Models `Start`: when the stop signal is raised (a previous `Stop`
happened) call `init` first, otherwise leave the state untouched; then run
`download`.  Returns the download result, the state the run began from,
and the event trace. -/
def startRun (st : DlState) (cfg : DCfg) (cbs : Callbacks) (henv : HeadEnv)
    (menv : MultiEnv) (senv : SingleEnv) :
    Except DlErr Unit × DlState × List Ev :=
  let st' := if st.stopRaised then dInit st else st
  let r := download cfg cbs henv menv senv
  (r.1, st', r.2)

/-! ## Concrete instances used by the witness theorems -/

/-- A sink state as left by a completed 100-byte run. -/
def sink0 : SinkState :=
  { loaded := 100, total := 100, accPacketSize := 0, rate := "0.00 MB/s" }

/-- A controller state with the stop signal unraised and two registered
cancel handles. -/
def state0 : DlState :=
  { sw := sink0, stopRaised := false, signalGen := 0, registry := ["k1", "k2"] }

/-- A typical configuration. -/
def cfg0 : DCfg :=
  { url := "http://h/f", fileName := "f", baseDir := "cache", concurrency := 4,
    resume := true }

/-- The configuration with an empty URL. -/
def cfgEmptyUrl : DCfg := { cfg0 with url := "" }

/-- All four observers registered. -/
def cbs0 : Callbacks :=
  { hasStart := true, hasFinished := true, hasCanceled := true, hasProgress := true }

/-- A part fetch that answers 206 with a 2-byte body. -/
def penv0 : PartEnv :=
  { getErr := false, status := 206, openErr := false, copyErr := false, bodyLen := 2 }

/-- A HEAD probe advertising range support for 10 bytes. -/
def henv0 : HeadEnv :=
  { headErr := false, status := 200, acceptRanges := true, contentLength := 10 }

/-- A merge environment in which every operation succeeds and part `i`
holds the single byte `i`. -/
def mergeEnv0 : MergeEnv :=
  { destOpenErr := false, partOpenErr := fun _ => false, copyErr := fun _ => false,
    closeErr := fun _ => false, removeErr := fun _ => false, partBytes := fun i => [i] }

/-- A multi-mode environment: no failures, no part files on disk, the stop
signal observed unraised at every spawn check and raised at the join. -/
def menv0 : MultiEnv :=
  { mkdirErr := false, stopAtSpawn := fun _ => false, stopAtJoin := true,
    partOnDisk := fun _ => none, partEnv := fun _ => penv0, mergeEnv := mergeEnv0,
    removeDirErr := false }

/-- A single-mode response with status 404. -/
def senv404 : SingleEnv :=
  { getErr := false, status := 404, contentLength := 10, openErr := false,
    copyErr := false, bodyLen := 10, stopAtEnd := false }

/-! ## Supporting lemmas: decimal rendering -/

theorem isDigitCh_digitChar (n : ℕ) (h : n < 10) : isDigitCh (digitChar n) = true := by
  interval_cases n <;> decide

theorem natDigitsAux_digits (fuel : ℕ) :
    ∀ (n : ℕ) (acc : List Char), (∀ c ∈ acc, isDigitCh c = true) →
      ∀ c ∈ natDigitsAux fuel n acc, isDigitCh c = true := by
  induction fuel with
  | zero => intro n acc hacc c hc; exact hacc c hc
  | succ fuel ih =>
    intro n acc hacc c hc
    rw [natDigitsAux] at hc
    by_cases h : n < 10
    · rw [if_pos h] at hc
      rcases List.mem_cons.mp hc with h1 | h1
      · rw [h1]; exact isDigitCh_digitChar n h
      · exact hacc c h1
    · rw [if_neg h] at hc
      refine ih (n / 10) (digitChar (n % 10) :: acc) ?_ c hc
      intro c' hc'
      rcases List.mem_cons.mp hc' with h1 | h1
      · rw [h1]; exact isDigitCh_digitChar _ (Nat.mod_lt _ (by omega))
      · exact hacc c' h1

theorem natDigitsAux_ne_nil (fuel n : ℕ) (acc : List Char)
    (h : fuel ≠ 0 ∨ acc ≠ []) : natDigitsAux fuel n acc ≠ [] := by
  induction fuel generalizing n acc with
  | zero =>
    rcases h with h | h
    · exact absurd rfl h
    · simpa [natDigitsAux] using h
  | succ fuel ih =>
    rw [natDigitsAux]
    by_cases h10 : n < 10
    · simp [h10]
    · rw [if_neg h10]
      exact ih (n / 10) (digitChar (n % 10) :: acc) (Or.inr (by simp))

theorem natDecimalChars_digits (n : ℕ) :
    ∀ c ∈ natDecimalChars n, isDigitCh c = true :=
  natDigitsAux_digits (n + 1) n [] (by intro c hc; simp at hc)

theorem natDecimalChars_ne_nil (n : ℕ) : natDecimalChars n ≠ [] :=
  natDigitsAux_ne_nil (n + 1) n [] (Or.inl (by omega))

/-! ## Supporting lemmas: the partition arithmetic -/

theorem rangeStartAcc_eq_mul (L N i : ℕ) :
    rangeStartAcc L N i = i * partSize L N := by
  induction i with
  | zero => simp [rangeStartAcc]
  | succ n ih => rw [rangeStartAcc, ih, Nat.succ_mul]

theorem rangeEnd_le (L N i : ℕ) (hi : i < N) : rangeEnd L N i ≤ L := by
  by_cases h : i = N - 1
  · rw [rangeEnd, if_pos h]
  · rw [rangeEnd, if_neg h, rangeStartAcc_eq_mul]
    have h1 : i * partSize L N + partSize L N = (i + 1) * partSize L N :=
      (Nat.succ_mul i (partSize L N)).symm
    have h2 : (i + 1) * partSize L N ≤ N * partSize L N :=
      Nat.mul_le_mul_right _ (by omega)
    have h3 : N * partSize L N ≤ L := by
      rw [partSize, Nat.mul_comm]
      exact Nat.div_mul_le_self L N
    omega

theorem exists_cover (L N b : ℕ) (hN : 1 ≤ N) (hb : b < L) :
    ∃ i, i < N ∧ rangeStartAcc L N i ≤ b ∧ b < rangeEnd L N i := by
  by_cases hp0 : partSize L N = 0
  · refine ⟨N - 1, by omega, ?_, ?_⟩
    · rw [rangeStartAcc_eq_mul, hp0, Nat.mul_zero]
      exact Nat.zero_le b
    · rw [rangeEnd, if_pos rfl]; exact hb
  · by_cases hcase : b / partSize L N < N - 1
    · refine ⟨b / partSize L N, by omega, ?_, ?_⟩
      · rw [rangeStartAcc_eq_mul]
        exact Nat.div_mul_le_self b (partSize L N)
      · rw [rangeEnd, if_neg (by omega), rangeStartAcc_eq_mul]
        have h1 := Nat.div_add_mod b (partSize L N)
        have h2 := Nat.mod_lt b (Nat.pos_of_ne_zero hp0)
        have h3 : b / partSize L N * partSize L N = partSize L N * (b / partSize L N) :=
          Nat.mul_comm _ _
        omega
    · refine ⟨N - 1, by omega, ?_, ?_⟩
      · rw [rangeStartAcc_eq_mul]
        have h3 : (N - 1) * partSize L N ≤ b / partSize L N * partSize L N :=
          Nat.mul_le_mul_right _ (by omega)
        exact le_trans h3 (Nat.div_mul_le_self b (partSize L N))
      · rw [rangeEnd, if_pos rfl]; exact hb

theorem cover_index_det (L N b i : ℕ) (hi : i < N)
    (h1 : rangeStartAcc L N i ≤ b) (h2 : b < rangeEnd L N i) :
    i = if partSize L N = 0 then N - 1
        else min (b / partSize L N) (N - 1) := by
  by_cases hp0 : partSize L N = 0
  · rw [if_pos hp0]
    by_contra hne
    rw [rangeEnd, if_neg hne, rangeStartAcc_eq_mul, hp0] at h2
    rw [rangeStartAcc_eq_mul, hp0] at h1
    omega
  · rw [if_neg hp0]
    by_cases hiN1 : i = N - 1
    · rw [rangeEnd, if_pos hiN1] at h2
      rw [rangeStartAcc_eq_mul] at h1
      have hle : N - 1 ≤ b / partSize L N := by
        rw [Nat.le_div_iff_mul_le (Nat.pos_of_ne_zero hp0)]
        calc (N - 1) * partSize L N ≤ i * partSize L N :=
              Nat.mul_le_mul_right _ (by omega)
          _ ≤ b := h1
      rw [hiN1]
      exact (Nat.min_eq_right hle).symm
    · rw [rangeEnd, if_neg hiN1, rangeStartAcc_eq_mul] at h2
      rw [rangeStartAcc_eq_mul] at h1
      have hdiv : b / partSize L N = i := by
        refine Nat.div_eq_of_lt_le h1 ?_
        have : (i + 1) * partSize L N = i * partSize L N + partSize L N :=
          Nat.succ_mul i (partSize L N)
        omega
      rw [hdiv]
      exact (Nat.min_eq_left (by omega)).symm

/-! ## Supporting lemmas: the merge loop -/

theorem mergeAux_all_ok (env : MergeEnv) (fuel : ℕ) :
    ∀ i, (∀ j, i ≤ j → j < i + fuel →
        env.partOpenErr j = false ∧ env.copyErr j = false ∧
        env.closeErr j = false ∧ env.removeErr j = false) →
      mergeAux env i fuel = (.ok (destBytesFrom env i fuel), mergeEvsFrom i fuel) := by
  induction fuel with
  | zero => intro i _; rfl
  | succ fuel ih =>
    intro i h
    have hi := h i (le_refl i) (by omega)
    have hrest := ih (i + 1) (fun j h1 h2 => h j (by omega) (by omega))
    rw [mergeAux, if_neg (by simp [hi.1]), if_neg (by simp [hi.2.1]),
      if_neg (by simp [hi.2.2.1]), if_neg (by simp [hi.2.2.2])]
    rw [destBytesFrom, mergeEvsFrom]
    simp [hrest]

theorem mergeAux_ok_flags (env : MergeEnv) (fuel : ℕ) :
    ∀ i bs, (mergeAux env i fuel).1 = .ok bs →
      ∀ j, i ≤ j → j < i + fuel →
        env.partOpenErr j = false ∧ env.copyErr j = false ∧
        env.closeErr j = false ∧ env.removeErr j = false := by
  induction fuel with
  | zero => intro i bs _ j h1 h2; omega
  | succ fuel ih =>
    intro i bs hok j h1 h2
    rw [mergeAux] at hok
    by_cases ho : env.partOpenErr i
    · rw [if_pos ho] at hok; exact absurd hok (by simp)
    · rw [if_neg ho] at hok
      by_cases hc : env.copyErr i
      · rw [if_pos hc] at hok; exact absurd hok (by simp)
      · rw [if_neg hc] at hok
        by_cases hcl : env.closeErr i
        · rw [if_pos hcl] at hok; exact absurd hok (by simp)
        · rw [if_neg hcl] at hok
          by_cases hr : env.removeErr i
          · rw [if_pos hr] at hok; exact absurd hok (by simp)
          · rw [if_neg hr] at hok
            rcases Nat.eq_or_lt_of_le h1 with he | hlt
            · exact he ▸ ⟨by simpa using ho, by simpa using hc,
                by simpa using hcl, by simpa using hr⟩
            · rcases hrest : (mergeAux env (i + 1) fuel).1 with e | bs'
              · simp only [hrest] at hok
                exact absurd hok (by simp)
              · exact ih (i + 1) bs' hrest j (by omega) (by omega)

/-! ## C4: Stop semantics -/

/-- C4: `Stop` invoked while the stop signal is already raised returns the
`AlreadyStopped` error and changes nothing; `Stop` invoked while it is not
raised raises the signal, invokes every cancel handle currently in the
registry, empties the registry and returns success; and in every state a
`Stop` immediately followed by a `Stop` has the second call fail with
`AlreadyStopped`. -/
theorem claim4_stop_semantics (st : DlState) :
    (st.stopRaised = true → stop st = (.error .alreadyStopped, st, [])) ∧
    (st.stopRaised = false →
      stop st = (.ok (), { st with stopRaised := true, registry := [] }, st.registry)) ∧
    (stop (stop st).2.1).1 = .error .alreadyStopped := by
  by_cases h : st.stopRaised
  · refine ⟨fun _ => by simp [stop, h], fun hf => by rw [hf] at h; exact absurd h (by simp), ?_⟩
    simp [stop, h]
  · refine ⟨fun ht => by rw [ht] at h; exact absurd rfl h, fun _ => by simp [stop, h], ?_⟩
    simp [stop, h]

/-- Witness for C4 at the concrete state `state0`. -/
theorem claim4_witness :
    state0.stopRaised = false ∧
    stop state0 = (.ok (), { state0 with stopRaised := true, registry := [] },
      state0.registry) ∧
    (stop (stop state0).2.1).1 = .error .alreadyStopped :=
  ⟨rfl, (claim4_stop_semantics state0).2.1 rfl, (claim4_stop_semantics state0).2.2⟩

/-! ## C6: empty URL -/

/-- C6: for every downloader whose url is the empty string, `Start` returns
the `InvalidURL` error with an empty effect trace — no I/O happens and no
observer callback fires. -/
theorem claim6_empty_url (st : DlState) (cfg : DCfg) (cbs : Callbacks)
    (henv : HeadEnv) (menv : MultiEnv) (senv : SingleEnv) (h : cfg.url = "") :
    (startRun st cfg cbs henv menv senv).1 = .error .invalidURL ∧
    (startRun st cfg cbs henv menv senv).2.2 = [] := by
  constructor <;> simp [startRun, download, h]

/-- Witness for C6 at a concrete empty-URL configuration. -/
theorem claim6_witness :
    cfgEmptyUrl.url = "" ∧
    (startRun state0 cfgEmptyUrl cbs0 henv0 menv0 senv404).1 = .error .invalidURL ∧
    (startRun state0 cfgEmptyUrl cbs0 henv0 menv0 senv404).2.2 = [] :=
  ⟨rfl, (claim6_empty_url state0 cfgEmptyUrl cbs0 henv0 menv0 senv404 rfl).1,
    (claim6_empty_url state0 cfgEmptyUrl cbs0 henv0 menv0 senv404 rfl).2⟩

/-! ## C10: Start without a prior Stop does not reinitialize -/

/-- C10: when `Start` is invoked while the stop signal is not raised,
`init` is not called — the run begins from the unchanged state (same
loaded counter, stop-signal object and cancel registry) — and the sink
keeps accumulating on top of the previous value, so after a completed run
(`loaded = total`) any further write makes `loaded` exceed the previous
run's total instead of restarting from zero. -/
theorem claim10_no_reinit (st : DlState) (cfg : DCfg) (cbs : Callbacks)
    (henv : HeadEnv) (menv : MultiEnv) (senv : SingleEnv)
    (h : st.stopRaised = false) :
    (startRun st cfg cbs henv menv senv).2.1 = st ∧
    (∀ n : ℕ, (swWrite st.sw n).1.loaded = st.sw.loaded + n) ∧
    (st.sw.loaded = st.sw.total →
      ∀ n : ℕ, 0 < n → st.sw.total < (swWrite st.sw n).1.loaded) := by
  refine ⟨by simp [startRun, h], fun n => rfl, fun he n hn => ?_⟩
  simp only [swWrite, ← he]
  omega

/-- Witness for C10: the state after a completed 100-byte run, followed by
a 7-byte write of the re-run. -/
theorem claim10_witness :
    state0.stopRaised = false ∧
    (startRun state0 cfg0 cbs0 henv0 menv0 senv404).2.1 = state0 ∧
    state0.sw.total < (swWrite state0.sw 7).1.loaded :=
  ⟨rfl, (claim10_no_reinit state0 cfg0 cbs0 henv0 menv0 senv404 rfl).1,
    (claim10_no_reinit state0 cfg0 cbs0 henv0 menv0 senv404 rfl).2.2 rfl 7 (by decide)⟩

/-! ## C8: concurrency normalization at construction -/

/-- Counterexample to C8 as stated: the claim asserts that for every
construction the effective concurrency is at least 1, but a caller-supplied
negative concurrency is kept as-is — only 0 is mapped to the default — so
constructing with `WithConcurrency(-1)` yields effective concurrency `-1`. -/
theorem claim8_counterexample :
    (newDownloaderOptions 4 "http://h/f" [OptFn.withConcurrency (-1)]).concurrency = -1 ∧
    ¬(1 ≤ (newDownloaderOptions 4 "http://h/f" [OptFn.withConcurrency (-1)]).concurrency) := by
  constructor
  · rfl
  · decide

theorem foldl_applyOpt_conc_nonneg (opts : List OptFn) (o : GoOptions)
    (h0 : 0 ≤ o.concurrency)
    (hops : ∀ c, OptFn.withConcurrency c ∈ opts → 0 ≤ c) :
    0 ≤ (opts.foldl applyOpt o).concurrency := by
  induction opts generalizing o with
  | nil => exact h0
  | cons a t ih =>
    rw [List.foldl_cons]
    refine ih (applyOpt o a) ?_ ?_
    · cases a with
      | withConcurrency c => exact hops c (by simp)
      | withFileName s => exact h0
      | withBaseDir s => exact h0
      | withResume b => exact h0
    · intro c hc
      exact hops c (List.mem_cons_of_mem _ hc)

/-- C8 amended: a caller-supplied concurrency of 0 is interpreted as the
default (the CPU count), and the effective concurrency is never zero
(so the multi-mode `partSize := L / concurrency` never divides by zero);
the stated lower bound `concurrency ≥ 1` holds whenever every
caller-supplied concurrency value is non-negative, but not in general. -/
theorem claim8_amended (numCPU : ℤ) (url : String) (opts : List OptFn)
    (hcpu : 1 ≤ numCPU) :
    ((opts.foldl applyOpt (defaultOptions numCPU url)).concurrency = 0 →
      (newDownloaderOptions numCPU url opts).concurrency = numCPU) ∧
    (newDownloaderOptions numCPU url opts).concurrency ≠ 0 ∧
    ((∀ c, OptFn.withConcurrency c ∈ opts → 0 ≤ c) →
      1 ≤ (newDownloaderOptions numCPU url opts).concurrency) := by
  refine ⟨fun h => by simp [newDownloaderOptions, h], ?_, ?_⟩
  · by_cases h : (opts.foldl applyOpt (defaultOptions numCPU url)).concurrency = 0
    · simp [newDownloaderOptions, h]
      omega
    · simp only [newDownloaderOptions, if_neg h]
      exact h
  · intro hops
    have hnn : 0 ≤ (opts.foldl applyOpt (defaultOptions numCPU url)).concurrency :=
      foldl_applyOpt_conc_nonneg opts _ (by simp [defaultOptions]; omega) hops
    by_cases h : (opts.foldl applyOpt (defaultOptions numCPU url)).concurrency = 0
    · simp [newDownloaderOptions, h]
      omega
    · simp [newDownloaderOptions, h]
      omega

/-- Witness for C8 (amended) at CPU count 4 and a caller-supplied
concurrency of 8. -/
theorem claim8_witness :
    (1 : ℤ) ≤ 4 ∧
    (newDownloaderOptions 4 "http://h/f" [OptFn.withConcurrency 8]).concurrency ≠ 0 ∧
    1 ≤ (newDownloaderOptions 4 "http://h/f" [OptFn.withConcurrency 8]).concurrency :=
  ⟨by decide,
    (claim8_amended 4 "http://h/f" [OptFn.withConcurrency 8] (by decide)).2.1,
    (claim8_amended 4 "http://h/f" [OptFn.withConcurrency 8] (by decide)).2.2
      (by intro c hc; simp at hc; omega)⟩

/-! ## C2: resume offsets and the empty effective range -/

/-- C2: when resume is enabled and the part file for worker `i` already
holds `d` bytes, the worker first feeds those `d` bytes to the progress
sink and then fetches only the effective range `[lo+d, hi)`; and whenever
the effective range is empty (`d ≥ hi - lo`) the fetcher returns success
immediately with an empty effect trace — no cancel handle registered, no
HTTP request issued, no file touched. -/
theorem claim2_resume_effective_range (url partDir filename : String)
    (env : PartEnv) (L N i d : ℕ) :
    workerRun url partDir filename true env L N i (some d) =
      Ev.sinkWrite d ::
        (downloadPartial url partDir filename true env
          (rangeStartAcc L N i + d) (rangeEnd L N i) i).2 ∧
    (rangeEnd L N i - rangeStartAcc L N i ≤ d →
      downloadPartial url partDir filename true env
        (rangeStartAcc L N i + d) (rangeEnd L N i) i = (.ok (), [])) := by
  constructor
  · simp [workerRun]
  · intro h
    rw [downloadPartial, if_pos (by omega)]

/-- Witness for C2: a 10-byte download over 4 workers whose part 0 already
holds 5 bytes (nominal range `[0, 2)`, so the part is over-complete). -/
theorem claim2_witness :
    rangeEnd 10 4 0 - rangeStartAcc 10 4 0 ≤ 5 ∧
    workerRun "u" "p" "f" true penv0 10 4 0 (some 5) =
      Ev.sinkWrite 5 ::
        (downloadPartial "u" "p" "f" true penv0
          (rangeStartAcc 10 4 0 + 5) (rangeEnd 10 4 0) 0).2 ∧
    downloadPartial "u" "p" "f" true penv0
      (rangeStartAcc 10 4 0 + 5) (rangeEnd 10 4 0) 0 = (.ok (), []) :=
  ⟨by decide,
    (claim2_resume_effective_range "u" "p" "f" penv0 10 4 0 5).1,
    (claim2_resume_effective_range "u" "p" "f" penv0 10 4 0 5).2 (by decide)⟩

/-! ## C7: single-mode requires status 200 -/

/-- C7: in single-mode, any GET response whose status is not exactly 200
fails the run with an error whose trace is just the cancel-handle
register/deregister around the GET: the destination file is never opened
and no observer callback (start, progress, finished, canceled) fires. -/
theorem claim7_single_requires_200 (cfg : DCfg) (cbs : Callbacks)
    (env : SingleEnv) (hget : env.getErr = false) (hst : env.status ≠ 200) :
    (singleDownload cfg cbs env).1 = .error (.badStatus env.status) ∧
    (singleDownload cfg cbs env).2 =
      [.regCancel cfg.fileName, .httpGet cfg.url none, .unregCancel cfg.fileName] ∧
    (∀ p t, Ev.openDest p t ∉ (singleDownload cfg cbs env).2) ∧
    (∀ t n, Ev.cbStart t n ∉ (singleDownload cfg cbs env).2) ∧
    (∀ k n, Ev.copyBody k n ∉ (singleDownload cfg cbs env).2) ∧
    (∀ n, Ev.cbFinished n ∉ (singleDownload cfg cbs env).2) ∧
    (∀ n, Ev.cbCanceled n ∉ (singleDownload cfg cbs env).2) := by
  have htr : (singleDownload cfg cbs env).2 =
      [.regCancel cfg.fileName, .httpGet cfg.url none, .unregCancel cfg.fileName] := by
    simp [singleDownload, hget, hst]
  have hres : (singleDownload cfg cbs env).1 = .error (.badStatus env.status) := by
    simp [singleDownload, hget, hst]
  refine ⟨hres, htr, ?_, ?_, ?_, ?_, ?_⟩ <;> intros <;> rw [htr] <;> simp

/-- Witness for C7 at a concrete 404 response. -/
theorem claim7_witness :
    senv404.getErr = false ∧ senv404.status ≠ 200 ∧
    (singleDownload cfg0 cbs0 senv404).1 = .error (.badStatus senv404.status) ∧
    (singleDownload cfg0 cbs0 senv404).2 =
      [.regCancel cfg0.fileName, .httpGet cfg0.url none, .unregCancel cfg0.fileName] :=
  ⟨rfl, by decide,
    (claim7_single_requires_200 cfg0 cbs0 senv404 rfl (by decide)).1,
    (claim7_single_requires_200 cfg0 cbs0 senv404 rfl (by decide)).2.1⟩

/-! ## C5: the merge procedure -/

/-- C5: `merge` opens the destination with truncation, then for
`i = 0 … N-1` in strictly ascending order opens part `i`, streams its
bytes to the destination, closes it and removes the part file — on
success the destination holds the parts' bytes concatenated in ascending
index order and the event sequence is exactly the ascending open/copy/
close/remove cycle — and the merge returns success exactly when every one
of these operations succeeds; any error (destination open, part open,
copy, close or remove) aborts the merge and is surfaced to the caller. -/
theorem claim5_merge_procedure (env : MergeEnv) (filename : String) (N : ℕ) :
    ((∃ bs, (merge env filename N).1 = .ok bs) ↔ mergeAllOk env N) ∧
    (mergeAllOk env N →
      merge env filename N =
        (.ok (destBytesFrom env 0 N), Ev.openDest filename true :: mergeEvsFrom 0 N)) ∧
    (¬mergeAllOk env N → ∃ e, (merge env filename N).1 = .error e) := by
  have hsucc : mergeAllOk env N →
      merge env filename N =
        (.ok (destBytesFrom env 0 N), Ev.openDest filename true :: mergeEvsFrom 0 N) := by
    intro h
    have hall := mergeAux_all_ok env N 0 (fun j _ h2 => h.2 j (by omega))
    rw [merge, if_neg (by simp [h.1])]
    simp [hall]
  have hfwd : (∃ bs, (merge env filename N).1 = .ok bs) → mergeAllOk env N := by
    rintro ⟨bs, hbs⟩
    by_cases hd : env.destOpenErr
    · rw [merge, if_pos hd] at hbs
      exact absurd hbs (by simp)
    · rw [merge, if_neg hd] at hbs
      refine ⟨by simpa using hd,
        fun i hi => mergeAux_ok_flags env N 0 bs ?_ i (by omega) (by omega)⟩
      simpa using hbs
  refine ⟨⟨hfwd, fun h => ⟨_, by rw [hsucc h]⟩⟩, hsucc, fun h => ?_⟩
  rcases hres : (merge env filename N).1 with e | bs
  · exact ⟨e, rfl⟩
  · exact absurd (hfwd ⟨bs, hres⟩) h

/-- Witness for C5: a fault-free two-part merge. -/
theorem claim5_witness :
    mergeAllOk mergeEnv0 2 ∧
    merge mergeEnv0 "f" 2 =
      (.ok (destBytesFrom mergeEnv0 0 2), Ev.openDest "f" true :: mergeEvsFrom 0 2) :=
  ⟨by decide, (claim5_merge_procedure mergeEnv0 "f" 2).2.1 (by decide)⟩

/-! ## C9: rate strings -/

theorem formatRateChars_eq (bps : ℕ) :
    formatRateChars bps =
      fmtTwoDecChars bps (specDen bps) ++ (' ' :: (specUnitChars bps ++ ['/', 's'])) := by
  simp only [formatRateChars, specDen, specUnitChars]
  split_ifs <;> simp

theorem specUnitChars_cases (bps : ℕ) :
    specUnitChars bps = ['B'] ∨ specUnitChars bps = ['K', 'B'] ∨
      specUnitChars bps = ['M', 'B'] ∨ specUnitChars bps = ['G', 'B'] := by
  simp only [specUnitChars]
  split_ifs <;> simp

theorem matches_fmtTwoDec (num den : ℕ) (u : List Char)
    (hu : u = ['B'] ∨ u = ['K', 'B'] ∨ u = ['M', 'B'] ∨ u = ['G', 'B']) :
    matchesRateRegex (String.mk (fmtTwoDecChars num den ++ (' ' :: (u ++ ['/', 's'])))) := by
  refine ⟨false, natDecimalChars (round2 num den / 100),
    digitChar (round2 num den % 100 / 10), digitChar (round2 num den % 10), u,
    natDecimalChars_ne_nil _, natDecimalChars_digits _,
    isDigitCh_digitChar _ (by omega), isDigitCh_digitChar _ (by omega), hu, ?_⟩
  simp [fmtTwoDecChars]

/-- C9: the initial rate string and every string published by a rate tick
match the regular expression `-?\d+\.\d{2} (B|KB|MB|GB)/s`; each tick
publishes `formatRate` of the atomically read-and-reset window count
multiplied by 4 and resets the window to zero; and the published
characters select their unit and divisor by the power-of-1024 thresholds
(at least 1 GiB/s renders as GB/s, then MB/s, then KB/s, otherwise B/s). -/
theorem claim9_rate_format (w : ℕ) :
    matchesRateRegex initialRate ∧
    calcRateTick w = (formatRate (w * 4), 0) ∧
    matchesRateRegex (calcRateTick w).1 ∧
    formatRateChars (w * 4) =
      fmtTwoDecChars (w * 4) (specDen (w * 4)) ++
        (' ' :: (specUnitChars (w * 4) ++ ['/', 's'])) := by
  refine ⟨?_, rfl, ?_, formatRateChars_eq (w * 4)⟩
  · exact ⟨false, ['0'], '0', '0', ['M', 'B'], by decide, by decide, by decide,
      by decide, by decide, by decide⟩
  · show matchesRateRegex (formatRate (w * 4))
    rw [formatRate, formatRateChars_eq]
    exact matches_fmtTwoDec _ _ _ (specUnitChars_cases _)

/-! ## C1: exact range coverage -/

theorem httpGet_mem_downloadPartial (url partDir filename : String) (resume : Bool)
    (env : PartEnv) (lo hi i : ℕ) (h : lo < hi) :
    Ev.httpGet url (some (rangeHeaderStr lo hi)) ∈
      (downloadPartial url partDir filename resume env lo hi i).2 := by
  rw [downloadPartial, if_neg (by omega)]
  split_ifs <;> simp

/-- C1: in multi-mode with total length `L > 0` and concurrency `N ≥ 1`
and no pre-existing part files, every byte `b < L` lies in exactly one
worker's half-open span `[rangeStart_i, rangeEnd_i)`, every span lies
inside `[0, L)`, each worker with a nonempty span issues exactly one GET
whose Range header is `bytes=lo-(hi-1)` for its span `[lo, hi)`, and a
worker with an empty span performs no effect at all. -/
theorem claim1_partition (L N : ℕ) (url partDir filename : String) (resume : Bool)
    (envs : ℕ → PartEnv) (_hL : 0 < L) (hN : 1 ≤ N) :
    (∀ b, b < L → ∃! i, i < N ∧ rangeStartAcc L N i ≤ b ∧ b < rangeEnd L N i) ∧
    (∀ i b, i < N → rangeStartAcc L N i ≤ b → b < rangeEnd L N i → b < L) ∧
    (∀ i, i < N → rangeStartAcc L N i < rangeEnd L N i →
      Ev.httpGet url (some (rangeHeaderStr (rangeStartAcc L N i) (rangeEnd L N i))) ∈
        workerRun url partDir filename resume (envs i) L N i none) ∧
    (∀ i, i < N → rangeEnd L N i ≤ rangeStartAcc L N i →
      workerRun url partDir filename resume (envs i) L N i none = []) := by
  refine ⟨?_, ?_, ?_, ?_⟩
  · intro b hb
    obtain ⟨i, hiN, h1, h2⟩ := exists_cover L N b hN hb
    refine ⟨i, ⟨hiN, h1, h2⟩, ?_⟩
    rintro j ⟨hjN, hj1, hj2⟩
    rw [cover_index_det L N b j hjN hj1 hj2, ← cover_index_det L N b i hiN h1 h2]
  · intro i b hiN h1 h2
    exact lt_of_lt_of_le h2 (rangeEnd_le L N i hiN)
  · intro i hiN hlt
    cases resume <;>
      simpa [workerRun] using
        httpGet_mem_downloadPartial url partDir filename _ (envs i) _ _ i hlt
  · intro i hiN hge
    have hdp : ∀ r, downloadPartial url partDir filename r (envs i)
        (rangeStartAcc L N i) (rangeEnd L N i) i = (.ok (), []) := by
      intro r
      rw [downloadPartial, if_pos hge]
    cases resume <;> simp [workerRun, hdp]

/-- Witness for C1: a 10-byte download over 4 workers. -/
theorem claim1_witness :
    0 < 10 ∧ 1 ≤ 4 ∧
    (∀ b, b < 10 → ∃! i, i < 4 ∧ rangeStartAcc 10 4 i ≤ b ∧ b < rangeEnd 10 4 i) :=
  ⟨by decide, by decide,
    (claim1_partition 10 4 "u" "p" "f" true (fun _ => penv0)
      (by decide) (by decide)).1⟩

/-! ## C3: cancellation is success -/

theorem spawnLoopAux_no_stop (stopAt : ℕ → Bool) (h : ∀ i, stopAt i = false)
    (work : ℕ → List Ev) : ∀ fuel i, (spawnLoopAux stopAt work i fuel).1 = false := by
  intro fuel
  induction fuel with
  | zero => intro i; rfl
  | succ fuel ih =>
    intro i
    rw [spawnLoopAux, if_neg (by simp [h i])]
    simpa using ih (i + 1)

theorem spawnLoopAux_mem (stopAt : ℕ → Bool) (work : ℕ → List Ev) :
    ∀ fuel i e, e ∈ (spawnLoopAux stopAt work i fuel).2 → ∃ j, e ∈ work j := by
  intro fuel
  induction fuel with
  | zero => intro i e he; simp [spawnLoopAux] at he
  | succ fuel ih =>
    intro i e he
    rw [spawnLoopAux] at he
    by_cases hs : stopAt i
    · rw [if_pos hs] at he; simp at he
    · rw [if_neg hs] at he
      have he' : e ∈ work i ++ (spawnLoopAux stopAt work (i + 1) fuel).2 := by
        simpa using he
      rcases List.mem_append.mp he' with h | h
      · exact ⟨i, h⟩
      · exact ih (i + 1) e h

theorem spawnLoop_mem (stopAt : ℕ → Bool) (work : ℕ → List Ev) (N : ℕ) (e : Ev)
    (he : e ∈ (spawnLoop stopAt work N).2) : ∃ j, e ∈ work j :=
  spawnLoopAux_mem stopAt work N 0 e he

theorem dp_no_cbFinished (url partDir filename : String) (resume : Bool)
    (env : PartEnv) (lo hi i : ℕ) (s : String) :
    Ev.cbFinished s ∉ (downloadPartial url partDir filename resume env lo hi i).2 := by
  intro h
  simp only [downloadPartial] at h
  split_ifs at h <;> simp at h

theorem dp_no_mergeRemovePart (url partDir filename : String) (resume : Bool)
    (env : PartEnv) (lo hi i : ℕ) (j : ℕ) :
    Ev.mergeRemovePart j ∉ (downloadPartial url partDir filename resume env lo hi i).2 := by
  intro h
  simp only [downloadPartial] at h
  split_ifs at h <;> simp at h

theorem dp_no_removeDirAll (url partDir filename : String) (resume : Bool)
    (env : PartEnv) (lo hi i : ℕ) (p : String) :
    Ev.removeDirAll p ∉ (downloadPartial url partDir filename resume env lo hi i).2 := by
  intro h
  simp only [downloadPartial] at h
  split_ifs at h <;> simp at h

theorem workerRun_no_cbFinished (url partDir filename : String) (resume : Bool)
    (env : PartEnv) (L N i : ℕ) (onDisk : Option ℕ) (s : String) :
    Ev.cbFinished s ∉ workerRun url partDir filename resume env L N i onDisk := by
  intro h
  cases resume <;> rcases onDisk with _ | d <;>
    simp [workerRun, dp_no_cbFinished] at h

theorem workerRun_no_mergeRemovePart (url partDir filename : String) (resume : Bool)
    (env : PartEnv) (L N i : ℕ) (onDisk : Option ℕ) (j : ℕ) :
    Ev.mergeRemovePart j ∉ workerRun url partDir filename resume env L N i onDisk := by
  intro h
  cases resume <;> rcases onDisk with _ | d <;>
    simp [workerRun, dp_no_mergeRemovePart] at h

theorem workerRun_no_removeDirAll (url partDir filename : String) (resume : Bool)
    (env : PartEnv) (L N i : ℕ) (onDisk : Option ℕ) (p : String) :
    Ev.removeDirAll p ∉ workerRun url partDir filename resume env L N i onDisk := by
  intro h
  cases resume <;> rcases onDisk with _ | d <;>
    simp [workerRun, dp_no_removeDirAll] at h

theorem multiDownload_canceled (cfg : DCfg) (cbs : Callbacks) (env : MultiEnv)
    (contentLen : ℤ) (hcl : 0 < contentLen) (hmk : env.mkdirErr = false)
    (hspawn : ∀ i, env.stopAtSpawn i = false) (hjoin : env.stopAtJoin = true) :
    multiDownload cfg cbs env contentLen =
      (.ok (), [Ev.setTotal contentLen] ++
        (if cbs.hasStart then [Ev.cbStart contentLen cfg.fileName] else []) ++
        [Ev.mkdir (getPartDir cfg.baseDir cfg.fileName)] ++
        (spawnLoop env.stopAtSpawn (fun i =>
          workerRun cfg.url (getPartDir cfg.baseDir cfg.fileName) cfg.fileName
            cfg.resume (env.partEnv i) contentLen.toNat cfg.concurrency i
            (env.partOnDisk i)) cfg.concurrency).2 ++
        (if cbs.hasCanceled then [Ev.cbCanceled cfg.fileName] else [])) := by
  have hns : ¬contentLen ≤ 0 := by omega
  have hsp := spawnLoopAux_no_stop env.stopAtSpawn hspawn
  simp [multiDownload, spawnLoop, hns, hmk, hjoin, hsp]

/-- C3: in a multi-mode run in which no spawn-loop stop check fired (all
workers were spawned and joined) and the stop signal is raised by the
post-join check, `Start` returns success, `onDownloadCanceled` fires (it
is registered), `onDownloadFinished` never fires, and the partial part
files are left in place: no part file is removed and the part directory
is not removed. -/
theorem claim3_canceled_run (st : DlState) (cfg : DCfg) (cbs : Callbacks)
    (henv : HeadEnv) (menv : MultiEnv) (senv : SingleEnv)
    (hurl : cfg.url ≠ "") (hhe : henv.headErr = false) (hhs : henv.status = 200)
    (har : henv.acceptRanges = true) (hcl : 0 < henv.contentLength)
    (hmk : menv.mkdirErr = false) (hspawn : ∀ i, menv.stopAtSpawn i = false)
    (hjoin : menv.stopAtJoin = true) (hcb : cbs.hasCanceled = true) :
    (startRun st cfg cbs henv menv senv).1 = .ok () ∧
    Ev.cbCanceled cfg.fileName ∈ (startRun st cfg cbs henv menv senv).2.2 ∧
    (∀ s, Ev.cbFinished s ∉ (startRun st cfg cbs henv menv senv).2.2) ∧
    (∀ j, Ev.mergeRemovePart j ∉ (startRun st cfg cbs henv menv senv).2.2) ∧
    (∀ p, Ev.removeDirAll p ∉ (startRun st cfg cbs henv menv senv).2.2) := by
  have hmd := multiDownload_canceled cfg cbs menv henv.contentLength hcl hmk hspawn hjoin
  have hres : (startRun st cfg cbs henv menv senv).1 =
      (multiDownload cfg cbs menv henv.contentLength).1 := by
    simp [startRun, download, hurl, hhe, hhs, har]
  have htrace : (startRun st cfg cbs henv menv senv).2.2 =
      Ev.httpHead :: (multiDownload cfg cbs menv henv.contentLength).2 := by
    simp [startRun, download, hurl, hhe, hhs, har]
  refine ⟨by rw [hres, hmd], ?_, ?_, ?_, ?_⟩
  · rw [htrace, hmd]
    simp [hcb]
  · intro s h
    rw [htrace, hmd] at h
    rcases hst : cbs.hasStart <;> simp [hst, hcb] at h
    · obtain ⟨j, hj⟩ := spawnLoop_mem _ _ _ _ h
      exact workerRun_no_cbFinished _ _ _ _ _ _ _ _ _ _ hj
    · obtain ⟨j, hj⟩ := spawnLoop_mem _ _ _ _ h
      exact workerRun_no_cbFinished _ _ _ _ _ _ _ _ _ _ hj
  · intro j h
    rw [htrace, hmd] at h
    rcases hst : cbs.hasStart <;> simp [hst, hcb] at h
    · obtain ⟨k, hk⟩ := spawnLoop_mem _ _ _ _ h
      exact workerRun_no_mergeRemovePart _ _ _ _ _ _ _ _ _ _ hk
    · obtain ⟨k, hk⟩ := spawnLoop_mem _ _ _ _ h
      exact workerRun_no_mergeRemovePart _ _ _ _ _ _ _ _ _ _ hk
  · intro p h
    rw [htrace, hmd] at h
    rcases hst : cbs.hasStart <;> simp [hst, hcb] at h
    · obtain ⟨k, hk⟩ := spawnLoop_mem _ _ _ _ h
      exact workerRun_no_removeDirAll _ _ _ _ _ _ _ _ _ _ hk
    · obtain ⟨k, hk⟩ := spawnLoop_mem _ _ _ _ h
      exact workerRun_no_removeDirAll _ _ _ _ _ _ _ _ _ _ hk

/-- Witness for C3 at the concrete environment `menv0` (stop raised at the
join, no failures, full callback registration). -/
theorem claim3_witness :
    cfg0.url ≠ "" ∧ (0 : ℤ) < henv0.contentLength ∧
    (∀ i, menv0.stopAtSpawn i = false) ∧ menv0.stopAtJoin = true ∧
    (startRun state0 cfg0 cbs0 henv0 menv0 senv404).1 = .ok () ∧
    Ev.cbCanceled cfg0.fileName ∈ (startRun state0 cfg0 cbs0 henv0 menv0 senv404).2.2 ∧
    (∀ s, Ev.cbFinished s ∉ (startRun state0 cfg0 cbs0 henv0 menv0 senv404).2.2) :=
  ⟨by decide, by decide, fun _ => rfl, rfl,
    (claim3_canceled_run state0 cfg0 cbs0 henv0 menv0 senv404 (by decide) rfl rfl rfl
      (by decide) rfl (fun _ => rfl) rfl rfl).1,
    (claim3_canceled_run state0 cfg0 cbs0 henv0 menv0 senv404 (by decide) rfl rfl rfl
      (by decide) rfl (fun _ => rfl) rfl rfl).2.1,
    (claim3_canceled_run state0 cfg0 cbs0 henv0 menv0 senv404 (by decide) rfl rfl rfl
      (by decide) rfl (fun _ => rfl) rfl rfl).2.2.1⟩

end DL
